import Mathlib

/-!
Shallow embedding of `cga_scraper.py` (Connecticut General Assembly event
scraper).  Python values are modelled as follows: `datetime` becomes the
`PyDateTime` structure (naive local time, field-lexicographic order);
machine-independent `int` becomes `Nat`; strings stay `String` (Python
`str.lower` is modelled ASCII-wise via `Char.toLower`, `\d`/`\s` of the
regex as `Char.isDigit`/`Char.isWhitespace`); fallible constructions
(`datetime(...)` raising `ValueError`) return `Option`; the `try/except`
of `parse_dt_line` maps a construction failure to `none`.
-/

/-- Naive local timestamp, the embedding of Python `datetime.datetime`
(microseconds are always zero in this program and are omitted). -/
structure PyDateTime where
  year : Nat
  month : Nat
  day : Nat
  hour : Nat
  minute : Nat
  second : Nat
deriving DecidableEq, Repr

/-- Decimal digits of `n`, fuel-based so that it reduces in the kernel. -/
def natDigitsAux : Nat → Nat → List Char
  | 0, _ => []
  | fuel+1, n =>
    if n < 10 then [Char.ofNat (48 + n)]
    else natDigitsAux fuel (n / 10) ++ [Char.ofNat (48 + n % 10)]

/-- Decimal string of a natural number. -/
def natStr (n : Nat) : String := ⟨natDigitsAux (n + 1) n⟩

/-- Zero-pad a decimal rendering to width `w` (Python `%0wd` / ISO padding). -/
def zpad (w n : Nat) : String :=
  ⟨List.replicate (w - (natStr n).length) '0'⟩ ++ natStr n

/-- Embedding of `datetime.isoformat()` for second-resolution values:
`YYYY-MM-DDTHH:MM:SS`. -/
def PyDateTime.isoformat (d : PyDateTime) : String :=
  zpad 4 d.year ++ "-" ++ zpad 2 d.month ++ "-" ++ zpad 2 d.day ++ "T" ++
  zpad 2 d.hour ++ ":" ++ zpad 2 d.minute ++ ":" ++ zpad 2 d.second

/-- Embedding of `strftime('%Y%m%dT%H%M%S')` used for the `DTSTART` line. -/
def PyDateTime.compact (d : PyDateTime) : String :=
  zpad 4 d.year ++ zpad 2 d.month ++ zpad 2 d.day ++ "T" ++
  zpad 2 d.hour ++ zpad 2 d.minute ++ zpad 2 d.second

/-- One scraped event, the embedding of the frozen dataclass `Event`. -/
structure Event where
  dt_start : PyDateTime
  title : String
  location : String := ""
deriving DecidableEq, Repr

/-- Embedding of Python `str.lower()` (ASCII case mapping). -/
def pyLower (s : String) : String := ⟨s.data.map Char.toLower⟩

/-! SHA-1, needed because `Event.uid` hashes its key with `hashlib.sha1`.
All words are `Nat` reduced modulo `2 ^ 32` where overflow matters. -/

/-- UTF-8 encoding of one character (Python `str.encode()`). -/
def utf8Bytes (c : Char) : List Nat :=
  let n := c.toNat
  if n < 128 then [n]
  else if n < 2048 then [192 ||| (n >>> 6), 128 ||| (n &&& 63)]
  else if n < 65536 then
    [224 ||| (n >>> 12), 128 ||| ((n >>> 6) &&& 63), 128 ||| (n &&& 63)]
  else
    [240 ||| (n >>> 18), 128 ||| ((n >>> 12) &&& 63),
     128 ||| ((n >>> 6) &&& 63), 128 ||| (n &&& 63)]

/-- UTF-8 bytes of a string (Python `str.encode()`). -/
def strBytes (s : String) : List Nat := (s.data.map utf8Bytes).flatten

/-- Rotate a 32-bit word left by `n`. -/
def rotl32 (n x : Nat) : Nat :=
  (((x <<< n) % 4294967296) ||| (x >>> (32 - n)))

/-- SHA-1 round constant. -/
def sha1K (i : Nat) : Nat :=
  if i < 20 then 1518500249
  else if i < 40 then 1859775393
  else if i < 60 then 2400959708
  else 3395469782

/-- SHA-1 round mixing function. -/
def sha1F (i b c d : Nat) : Nat :=
  if i < 20 then (b &&& c) ||| ((b ^^^ 4294967295) &&& d)
  else if i < 40 then b ^^^ c ^^^ d
  else if i < 60 then (b &&& c) ||| (b &&& d) ||| (c &&& d)
  else b ^^^ c ^^^ d

/-- Big-endian 8-byte rendering of the message bit length. -/
def be64 (n : Nat) : List Nat :=
  [(n >>> 56) &&& 255, (n >>> 48) &&& 255, (n >>> 40) &&& 255,
   (n >>> 32) &&& 255, (n >>> 24) &&& 255, (n >>> 16) &&& 255,
   (n >>> 8) &&& 255, n &&& 255]

/-- SHA-1 padding: append `0x80`, zeros to 56 mod 64, then the bit length. -/
def sha1Pad (msg : List Nat) : List Nat :=
  msg ++ [128] ++ List.replicate ((119 - msg.length % 64) % 64) 0 ++
    be64 (msg.length * 8)

/-- Split a byte list into 64-byte blocks (fuel-based for kernel reduction). -/
def toBlocksAux : Nat → List Nat → List (List Nat)
  | 0, _ => []
  | _+1, [] => []
  | fuel+1, l => l.take 64 :: toBlocksAux fuel (l.drop 64)

/-- 64-byte blocks of a padded message. -/
def toBlocks (l : List Nat) : List (List Nat) := toBlocksAux l.length l

/-- Big-endian 32-bit words of one 64-byte block. -/
def toWords : List Nat → List Nat
  | b0 :: b1 :: b2 :: b3 :: rest =>
    (((b0 * 256 + b1) * 256 + b2) * 256 + b3) :: toWords rest
  | _ => []

/-- Extend 16 schedule words to 80. -/
def sha1Schedule (w : List Nat) : List Nat :=
  (List.range 64).foldl
    (fun w _ =>
      w ++ [rotl32 1 (w.getD (w.length - 3) 0 ^^^ w.getD (w.length - 8) 0 ^^^
                      w.getD (w.length - 14) 0 ^^^ w.getD (w.length - 16) 0)])
    w

/-- SHA-1 compression of one block into the running state. -/
def sha1Compress (h : Nat × Nat × Nat × Nat × Nat) (block : List Nat) :
    Nat × Nat × Nat × Nat × Nat :=
  let ws := sha1Schedule (toWords block)
  let (h0, h1, h2, h3, h4) := h
  let st := (List.range 80).foldl
    (fun st i =>
      let (a, b, c, d, e) := st
      let temp := (rotl32 5 a + sha1F i b c d + e + sha1K i + ws.getD i 0) %
        4294967296
      (temp, a, rotl32 30 b, c, d))
    (h0, h1, h2, h3, h4)
  let (a, b, c, d, e) := st
  ((h0 + a) % 4294967296, (h1 + b) % 4294967296, (h2 + c) % 4294967296,
   (h3 + d) % 4294967296, (h4 + e) % 4294967296)

/-- SHA-1 digest as five 32-bit words. -/
def sha1Words (msg : List Nat) : Nat × Nat × Nat × Nat × Nat :=
  (toBlocks (sha1Pad msg)).foldl sha1Compress
    (1732584193, 4023233417, 2562383102, 271733878, 3285377520)

/-- Lowercase hex character of a nibble. -/
def hexChar (n : Nat) : Char :=
  if n < 10 then Char.ofNat (48 + n) else Char.ofNat (87 + n)

/-- Eight lowercase hex characters of one 32-bit word. -/
def word8hex (w : Nat) : List Char :=
  (List.range 8).map (fun i => hexChar ((w >>> (28 - 4 * i)) &&& 15))

/-- Embedding of `hashlib.sha1(...).hexdigest()`. -/
def sha1hex (msg : List Nat) : String :=
  let (a, b, c, d, e) := sha1Words msg
  ⟨word8hex a ++ word8hex b ++ word8hex c ++ word8hex d ++ word8hex e⟩

/-- Embedding of the `Event.uid` property:
`cga-<sha1 of "<isoformat>|<lowercased title>">@cga.ct.gov`. -/
def Event.uid (e : Event) : String :=
  "cga-" ++ sha1hex (strBytes (e.dt_start.isoformat ++ "|" ++ pyLower e.title))
    ++ "@cga.ct.gov"

/-! Embedding of `normalize_ws` and of the date/time regular expression
`(\d{1,2})/(\d{1,2})/(\d{4})\s+(\d{1,2}):(\d{2})(?::(\d{2}))?\s*(AM|PM)`
with `re.search` semantics (leftmost match, greedy quantifiers with
backtracking). -/

/-- Strip leading and trailing whitespace (Python `str.strip()`). -/
def stripChars (l : List Char) : List Char :=
  ((l.dropWhile Char.isWhitespace).reverse.dropWhile Char.isWhitespace).reverse

/-- Collapse every whitespace run to a single space (`re.sub(r"\s+", " ", ·)`). -/
def collapseWs : List Char → List Char
  | [] => []
  | [c] => if c.isWhitespace then [' '] else [c]
  | c :: c2 :: rest =>
    if c.isWhitespace && c2.isWhitespace then collapseWs (c2 :: rest)
    else if c.isWhitespace then ' ' :: collapseWs (c2 :: rest)
    else c :: collapseWs (c2 :: rest)

/-- Embedding of `normalize_ws`. -/
def normalize_ws (s : String) : String := ⟨collapseWs (stripChars s.data)⟩

/-- Captured groups of the date/time pattern.  `pm = true` means the
`AM|PM` group matched `PM`; `sec` is the optional seconds group. -/
structure ReGroups where
  mon : Nat
  day : Nat
  year : Nat
  h : Nat
  m : Nat
  sec : Option Nat
  pm : Bool
deriving DecidableEq, Repr

/-- Numeric value of a decimal digit character. -/
def digitVal (c : Char) : Nat := c.toNat - 48

/-- `\d{1,2}` at the head: greedy, two digits preferred over one. -/
def matchD12 : List Char → List (Nat × List Char)
  | [] => []
  | [c] => if c.isDigit then [(digitVal c, [])] else []
  | c1 :: c2 :: rest =>
    if c1.isDigit then
      if c2.isDigit then
        [(digitVal c1 * 10 + digitVal c2, rest), (digitVal c1, c2 :: rest)]
      else [(digitVal c1, c2 :: rest)]
    else []

/-- Exactly two digits at the head. -/
def matchD2 : List Char → List (Nat × List Char)
  | c1 :: c2 :: rest =>
    if c1.isDigit && c2.isDigit then
      [(digitVal c1 * 10 + digitVal c2, rest)]
    else []
  | _ => []

/-- Exactly four digits at the head. -/
def matchD4 : List Char → List (Nat × List Char)
  | c1 :: c2 :: c3 :: c4 :: rest =>
    if c1.isDigit && c2.isDigit && c3.isDigit && c4.isDigit then
      [(((digitVal c1 * 10 + digitVal c2) * 10 + digitVal c3) * 10 +
        digitVal c4, rest)]
    else []
  | _ => []

/-- One literal character at the head. -/
def matchLit (ch : Char) : List Char → List (Unit × List Char)
  | c :: rest => if c = ch then [((), rest)] else []
  | [] => []

/-- Whitespace quantifier (`\s+` for `minLen = 1`, `\s*` for `minLen = 0`):
all admissible split points, longest consumed run first (greedy). -/
def wsSplits (s : List Char) (minLen : Nat) : List (Unit × List Char) :=
  let run := (s.takeWhile Char.isWhitespace).length
  if run < minLen then []
  else (List.range (run + 1 - minLen)).map (fun i => ((), s.drop (run - i)))

/-- Case-insensitive `AM|PM` at the head; returns `true` for PM. -/
def matchAmpm : List Char → List (Bool × List Char)
  | c1 :: c2 :: rest =>
    if (c1 = 'A' ∨ c1 = 'a') ∧ (c2 = 'M' ∨ c2 = 'm') then [(false, rest)]
    else if (c1 = 'P' ∨ c1 = 'p') ∧ (c2 = 'M' ∨ c2 = 'm') then [(true, rest)]
    else []
  | _ => []

/-- Optional seconds group `(?::(\d{2}))?`: greedy, presence preferred. -/
def matchOptSec (s : List Char) : List (Option Nat × List Char) :=
  (match s with
   | c :: rest =>
     if c = ':' then (matchD2 rest).map (fun p => (some p.1, p.2)) else []
   | [] => []) ++ [(none, s)]

/-- Backtracking combinator: try each alternative in order, return the
first continuation success. -/
def pick {α β : Type} : List (α × List Char) → (α → List Char → Option β) →
    Option β
  | [], _ => none
  | (a, r) :: rest, f =>
    match f a r with
    | some b => some b
    | none => pick rest f

/-- Match the whole pattern anchored at the given position. -/
def matchAt (s : List Char) : Option ReGroups :=
  pick (matchD12 s) fun mon r1 =>
  pick (matchLit '/' r1) fun _ r2 =>
  pick (matchD12 r2) fun day r3 =>
  pick (matchLit '/' r3) fun _ r4 =>
  pick (matchD4 r4) fun year r5 =>
  pick (wsSplits r5 1) fun _ r6 =>
  pick (matchD12 r6) fun h r7 =>
  pick (matchLit ':' r7) fun _ r8 =>
  pick (matchD2 r8) fun mi r9 =>
  pick (matchOptSec r9) fun sec r10 =>
  pick (wsSplits r10 0) fun _ r11 =>
  pick (matchAmpm r11) fun pm _ =>
  some ⟨mon, day, year, h, mi, sec, pm⟩

/-- Embedding of `pattern.search`: leftmost position with a match. -/
def reSearch : List Char → Option ReGroups
  | [] => none
  | c :: rest =>
    match matchAt (c :: rest) with
    | some g => some g
    | none => reSearch rest

/-- Gregorian leap-year test, as `datetime` validates it. -/
def isLeap (y : Nat) : Bool := y % 4 = 0 && (y % 100 ≠ 0 || y % 400 = 0)

/-- Number of days of a month (`m` is 1-based). -/
def daysInMonth (y m : Nat) : Nat :=
  if m = 2 then (if isLeap y then 29 else 28)
  else if m = 4 ∨ m = 6 ∨ m = 9 ∨ m = 11 then 30
  else 31

/-- Embedding of the `datetime(year, month, day, hour, minute)` constructor:
`none` models the `ValueError` raised on out-of-range fields, which the
`except` clause of `parse_dt_line` turns into `None`.  Seconds default
to `0` because the call site passes five arguments. -/
def mkDatetime (y mo d h mi : Nat) : Option PyDateTime :=
  if 1 ≤ y ∧ y ≤ 9999 ∧ 1 ≤ mo ∧ mo ≤ 12 ∧ 1 ≤ d ∧ d ≤ daysInMonth y mo ∧
     h ≤ 23 ∧ mi ≤ 59
  then some ⟨y, mo, d, h, mi, 0⟩ else none

/-- The 12-hour to 24-hour conversion of `parse_dt_line`:
`if PM and h != 12: h += 12 elif AM and h == 12: h = 0`. -/
def to24h (pm : Bool) (h : Nat) : Nat :=
  if pm ∧ h ≠ 12 then h + 12
  else if ¬pm ∧ h = 12 then 0
  else h

/-- Embedding of `parse_dt_line` (the `clean_dt` binding is inlined). -/
def parse_dt_line (date_str time_str : String) : Option PyDateTime :=
  match reSearch (normalize_ws (date_str ++ " " ++ time_str)).data with
  | none => none
  | some g => mkDatetime g.year g.mon g.day (to24h g.pm g.h) g.m

/-! Embedding of `parse_events_from_html`.  HTML parsing itself
(BeautifulSoup) is outside the program text; a table row is modelled as
the list of its cell texts, each cell being what `get_text(strip=True)`
returns for it, exactly the granularity at which the script consumes the
parsed tree. -/

/-- Embedding of Python `str.isdigit()` (ASCII digits). -/
def pyIsdigit (s : String) : Bool := !s.data.isEmpty && s.data.all Char.isDigit

/-- Candidate texts of a row: cells from index 2 on, whitespace-normalized,
kept when non-empty, not purely numeric and not the filler `"cga event"`. -/
def filter_candidates (cols : List String) : List String :=
  ((cols.drop 2).map normalize_ws).filter
    (fun text => !text.isEmpty && !pyIsdigit text &&
      pyLower text != "cga event")

/-- Title/location selection with the short-title correction of
`parse_events_from_html` (lines 90–96 of the script). -/
def select_title_loc (pt : List String) : String × String :=
  let title := pt.headD "Unknown CGA Meeting"
  let location := pt.getD 1 ""
  if title.length < 3 ∧ pt.length > 1 then (pt.getD 1 "", pt.getD 2 "")
  else (title, location)

/-- Event extracted from one table row, `none` when the row is dropped. -/
def parse_events_row (cols : List String) : Option Event :=
  if cols.length < 4 then none
  else
    match parse_dt_line (cols.getD 0 "") (cols.getD 1 "") with
    | none => none
    | some dt =>
      let tl := select_title_loc (filter_candidates cols)
      some ⟨dt, tl.1, tl.2⟩

/-- Embedding of `parse_events_from_html`, one document = its row list. -/
def parse_events_from_rows (rows : List (List String)) : List Event :=
  rows.filterMap parse_events_row

/-! Embedding of `build_ics`.  The wall-clock `datetime.now(timezone.utc)`
read at serialization time is passed in as the pre-rendered `now` string. -/

/-- Replace every comma by backslash-comma (`title.replace(',', r'\,')`). -/
def escapeCommas (s : String) : String :=
  ⟨(s.data.map (fun c => if c = ',' then ['\\', ','] else [c])).flatten⟩

/-- The seven lines appended for one event. -/
def ics_event_lines (now : String) (e : Event) : List String :=
  ["BEGIN:VEVENT",
   "UID:" ++ e.uid,
   "DTSTAMP:" ++ now,
   "DTSTART;TZID=America/New_York:" ++ e.dt_start.compact,
   "SUMMARY:" ++ escapeCommas e.title,
   "LOCATION:" ++ escapeCommas e.location,
   "END:VEVENT"]

/-- The `lines` list accumulated by `build_ics`. -/
def ics_lines (now : String) (events : List Event) : List String :=
  ["BEGIN:VCALENDAR", "VERSION:2.0", "PRODID:-//CGA//EN", "METHOD:PUBLISH"] ++
  (events.map (ics_event_lines now)).flatten ++ ["END:VCALENDAR"]

/-- Embedding of Python `sep.join(lines)`. -/
def joinSep (sep : String) : List String → String
  | [] => ""
  | x :: xs => xs.foldl (fun acc y => acc ++ sep ++ y) x

/-- Embedding of `build_ics`: `"\r\n".join(lines) + "\r\n"`. -/
def build_ics (now : String) (events : List Event) : String :=
  joinSep "\r\n" (ics_lines now events) ++ "\r\n"

/-! Embedding of the deduplication and sort of `main`:
`sorted({e.uid: e for e in all_events}.values(), key=lambda x: x.dt_start)`. -/

/-- One dict-comprehension step: existing key keeps its position but its
value is overwritten; a new key is appended (Python insertion-ordered dict). -/
def upsert (m : List (String × Event)) (k : String) (v : Event) :
    List (String × Event) :=
  match m with
  | [] => [(k, v)]
  | (k0, v0) :: rest =>
    if k0 = k then (k0, v) :: rest else (k0, v0) :: upsert rest k v

/-- The dict `{e.uid: e for e in all_events}` as an insertion-ordered
association list. -/
def dict_of (evs : List Event) : List (String × Event) :=
  evs.foldl (fun m e => upsert m e.uid e) []

/-- The `.values()` view. -/
def dict_values (m : List (String × Event)) : List Event := m.map Prod.snd

/-- Strict field-lexicographic order on naive datetimes, the order Python
uses to compare `datetime` values inside `sorted`. -/
def dtLt (a b : PyDateTime) : Prop :=
  a.year < b.year ∨ (a.year = b.year ∧
   (a.month < b.month ∨ (a.month = b.month ∧
    (a.day < b.day ∨ (a.day = b.day ∧
     (a.hour < b.hour ∨ (a.hour = b.hour ∧
      (a.minute < b.minute ∨ (a.minute = b.minute ∧
       a.second < b.second)))))))))

instance (a b : PyDateTime) : Decidable (dtLt a b) := by
  unfold dtLt; exact inferInstance

/-- Reflexive closure used to state sortedness. -/
def dtLe (a b : PyDateTime) : Prop := ¬ dtLt b a

/-- Stable insertion with respect to `dtLt` on start times: the new,
later-encountered element goes after every element it is not strictly
below, which is how Python's stable `sorted` orders ties. -/
def pyInsert (x : Event) : List Event → List Event
  | [] => [x]
  | y :: ys =>
    if dtLt x.dt_start y.dt_start then x :: y :: ys else y :: pyInsert x ys

/-- Embedding of `sorted(·, key=lambda x: x.dt_start)` as the unique
stable sort for that key. -/
def py_sorted_by_start (l : List Event) : List Event :=
  l.foldl (fun acc x => pyInsert x acc) []

/-- The `final` list of `main`: dict-based dedup then stable sort. -/
def finalize (all_events : List Event) : List Event :=
  py_sorted_by_start (dict_values (dict_of all_events))

/-! Embedding of `fetch_events_for_day` token handling.  The network and
BeautifulSoup are the environment: the landing page is modelled as a map
from input-field name to `none` (no such `<input>` element) or `some v`
(element present, `v` its optional `value` attribute, which
`.get("value", "")` defaults to the empty string). -/

/-- The three hidden fields the script looks for. -/
def token_fields : List String :=
  ["__VIEWSTATE", "__VIEWSTATEGENERATOR", "__EVENTVALIDATION"]

/-- Parsed landing page: input-field name to `none` (no such `<input>`
element) or `some v` (element present, `v` its optional `value`
attribute, which `.get("value", "")` defaults to the empty string). -/
abbrev LandingPage := String → Option (Option String)

/-- The dict comprehension building `session.asp_tokens`: a field enters
the mapping only when its input element exists on the landing page. -/
def extract_tokens (landing : LandingPage) :
    List (String × String) :=
  token_fields.filterMap (fun f => (landing f).map (fun v => (f, v.getD "")))

/-- Mutable state hung on the `requests.Session` object:
`none` models `not hasattr(session, 'asp_tokens')`. -/
structure SessionState where
  asp_tokens : Option (List (String × String))
deriving DecidableEq, Repr

/-- One whole `fetch_events_for_day` call.  `get` is the outcome the
environment gives the landing-page GET (`.error` models `session.get` raising:
then `session.asp_tokens` is never assigned and the exception propagates
to the caller before any POST is attempted); it is consulted only when no
mapping is stored yet, because the `hasattr` guard skips the GET block
entirely once `asp_tokens` exists.  `post` is the outcome of the search
POST; the tokens are assigned before the POST, so a failing POST leaves
the stored mapping in place.  The `Bool` records whether the landing GET
was issued on this call. -/
def fetch_events_day_model (get : Except String LandingPage)
    (post : Except String String) (st : SessionState) :
    SessionState × Bool × Except String String :=
  match st.asp_tokens with
  | some _ => (st, false, post)
  | none =>
    match get with
    | .error e => (st, true, .error e)
    | .ok landing => (⟨some (extract_tokens landing)⟩, true, post)

/-- A run of consecutive `fetch_events_for_day` calls, each given its own
GET and POST outcomes; returns the final state and per-call GET flags. -/
def run_fetches :
    List (Except String LandingPage × Except String String) →
    SessionState → SessionState × List Bool
  | [], st => (st, [])
  | gp :: gps, st =>
    let r := fetch_events_day_model gp.1 gp.2 st
    let rest := run_fetches gps r.1
    (rest.1, r.2.1 :: rest.2)

/-! Embedding of `main`.  The environment supplies, for each day index,
either the parsed rows of the returned document or an exception; the
politeness `time.sleep(0.5)` and the per-day error print are recorded as
trace actions, and the output file as an optional written content. -/

/-- Observable actions of the per-day loop. -/
inductive RunAction where
  | sleepHalf : RunAction
  | logErrorDay : Nat → RunAction
deriving DecidableEq, Repr

/-- One iteration of the day loop: on success, extend the accumulator
when the day produced events and then sleep; on an exception, log the
day and continue — the sleep inside the `try` block is skipped. -/
def day_step (st : List Event × List RunAction) (i : Nat)
    (res : Except String (List (List String))) :
    List Event × List RunAction :=
  match res with
  | .ok rows =>
    let day_events := parse_events_from_rows rows
    let all := if day_events.isEmpty then st.1 else st.1 ++ day_events
    (all, st.2 ++ [RunAction.sleepHalf])
  | .error _ => (st.1, st.2 ++ [RunAction.logErrorDay i])

/-- Result of one run of `main`. -/
structure RunResult where
  all_events : List Event
  actions : List RunAction
  written : Option String
  success : Bool
deriving DecidableEq, Repr

/-- The fixed window length `days_to_pull = 14`. -/
def days_to_pull : Nat := 14

/-- The per-day loop of `main`: accumulated events and action trace. -/
def main_loop (days : Nat → Except String (List (List String))) :
    List Event × List RunAction :=
  (List.range days_to_pull).foldl (fun st i => day_step st i (days i)) ([], [])

/-- Embedding of `main`: accumulate the fixed window, then either write
the serialized deduplicated/sorted list and report success, or report
failure and leave the output artifact untouched. -/
def main_model (days : Nat → Except String (List (List String)))
    (now : String) : RunResult :=
  if (main_loop days).1.isEmpty then
    { all_events := (main_loop days).1, actions := (main_loop days).2,
      written := none, success := false }
  else
    { all_events := (main_loop days).1, actions := (main_loop days).2,
      written := some (build_ics now (finalize (main_loop days).1)),
      success := true }

/-- Contents of the output path after a run, given its prior contents
(`none` = the file did not exist). -/
def apply_write (prior : Option String) (r : RunResult) : Option String :=
  match r.written with
  | some c => some c
  | none => prior

/-- Whether a day's fetch/extract step completed without an exception. -/
def okDay : Except String (List (List String)) → Bool
  | .ok _ => true
  | .error _ => false

/-- The event kept for a uid: the last one in iteration order, `none`
when no event carries the uid. -/
def lastWith : List Event → String → Option Event
  | [], _ => none
  | e :: es, k =>
    match lastWith es k with
    | some x => some x
    | none => if e.uid = k then some e else none

/-- Generalized dict builder (the fold of `dict_of` from an arbitrary
initial association list), used to reason by induction. -/
def dictAux (l : List Event) (m : List (String × Event)) :
    List (String × Event) :=
  l.foldl (fun m e => upsert m e.uid e) m

/-! Helper lemmas for the parser claims. -/

/-- A successful parse decomposes into a successful pattern search and a
successful `datetime` construction. -/
lemma parse_dt_line_eq_some {ds ts : String} {dt : PyDateTime}
    (hp : parse_dt_line ds ts = some dt) :
    ∃ g, reSearch (normalize_ws (ds ++ " " ++ ts)).data = some g ∧
      mkDatetime g.year g.mon g.day (to24h g.pm g.h) g.m = some dt := by
  unfold parse_dt_line at hp
  revert hp
  cases h : reSearch (normalize_ws (ds ++ " " ++ ts)).data with
  | none => simp
  | some g => exact fun hp => ⟨g, rfl, hp⟩

/-- A successful `datetime` construction pins every field and carries the
range conditions. -/
lemma mkDatetime_eq_some {y mo d h mi : Nat} {dt : PyDateTime}
    (hm : mkDatetime y mo d h mi = some dt) :
    dt = ⟨y, mo, d, h, mi, 0⟩ ∧ h ≤ 23 ∧ mi ≤ 59 := by
  unfold mkDatetime at hm
  split at hm
  case isTrue hc => exact ⟨(Option.some.inj hm).symm, hc.2.2.2.2.2.2.1, hc.2.2.2.2.2.2.2⟩
  case isFalse => exact absurd hm (by simp)

/-- C1: `uid` is a pure function of `(startTime, lowercased title)`: two
events with equal start time and case-insensitively equal (= equal after
lowercasing) titles have equal uids, whatever their locations. -/
theorem uid_ignores_location (e1 e2 : Event)
    (hdt : e1.dt_start = e2.dt_start)
    (ht : pyLower e1.title = pyLower e2.title) :
    e1.uid = e2.uid := by
  unfold Event.uid
  rw [hdt, ht]

/-- Witness for C1: same start time, titles differing only in case,
different locations. -/
theorem uid_ignores_location_witness :
    (⟨⟨2025, 1, 5, 10, 0, 0⟩, "Budget Session", "Room A"⟩ : Event).dt_start =
      (⟨⟨2025, 1, 5, 10, 0, 0⟩, "bUDGET sESSION", "Room B"⟩ : Event).dt_start ∧
    pyLower (⟨⟨2025, 1, 5, 10, 0, 0⟩, "Budget Session", "Room A"⟩ : Event).title =
      pyLower (⟨⟨2025, 1, 5, 10, 0, 0⟩, "bUDGET sESSION", "Room B"⟩ : Event).title ∧
    (⟨⟨2025, 1, 5, 10, 0, 0⟩, "Budget Session", "Room A"⟩ : Event).uid =
      (⟨⟨2025, 1, 5, 10, 0, 0⟩, "bUDGET sESSION", "Room B"⟩ : Event).uid :=
  ⟨rfl, by decide, uid_ignores_location _ _ rfl (by decide)⟩

/-- C3: `parse_dt_line` is total into `Option`: a pattern miss gives
`none`, and a pattern hit whose numbers fail `datetime` validation (the
modelled `ValueError` caught by the `except` clause) gives the same
`none`, indistinguishable from a mismatch; concretely
`("13/45/2024", "25:00 AM")` matches the pattern yet returns `none`,
the very value a non-matching input like `("hello", "world")` returns. -/
theorem parse_never_raises :
    (∀ ds ts, reSearch (normalize_ws (ds ++ " " ++ ts)).data = none →
      parse_dt_line ds ts = none) ∧
    (∀ ds ts g, reSearch (normalize_ws (ds ++ " " ++ ts)).data = some g →
      mkDatetime g.year g.mon g.day (to24h g.pm g.h) g.m = none →
      parse_dt_line ds ts = none) ∧
    parse_dt_line "13/45/2024" "25:00 AM" = none ∧
    parse_dt_line "13/45/2024" "25:00 AM" = parse_dt_line "hello" "world" := by
  refine ⟨fun ds ts h => ?_, fun ds ts g h hm => ?_, by decide, by decide⟩
  · unfold parse_dt_line
    rw [h]
  · unfold parse_dt_line
    rw [h]
    exact hm

/-- Witness for C3: the malformed pair matches the pattern with month 13,
day 45, hour 25, whose `datetime` construction fails, so the parse
returns `none`. -/
theorem parse_never_raises_witness :
    reSearch (normalize_ws ("13/45/2024" ++ " " ++ "25:00 AM")).data =
      some ⟨13, 45, 2024, 25, 0, none, false⟩ ∧
    mkDatetime 2024 13 45 (to24h false 25) 0 = none ∧
    parse_dt_line "13/45/2024" "25:00 AM" = none :=
  ⟨by decide, by decide,
    parse_never_raises.2.1 "13/45/2024" "25:00 AM"
      ⟨13, 45, 2024, 25, 0, none, false⟩ (by decide) (by decide)⟩

/-- C4: on every successful parse the hour lies in `[0, 23]`; the
12-hour conversion maps `(PM, 12) ↦ 12`, `(PM, h≠12) ↦ h+12`,
`(AM, 12) ↦ 0`, `(AM, h≠12) ↦ h`; and the four boundary cases come out
as `12:00 AM → 0`, `12:30 PM → 12`, `1:15 PM → 13`, `11:59 PM → 23`. -/
theorem hour_conversion_in_range :
    (∀ ds ts dt, parse_dt_line ds ts = some dt → dt.hour ≤ 23) ∧
    to24h true 12 = 12 ∧
    (∀ h, h ≠ 12 → to24h true h = h + 12) ∧
    to24h false 12 = 0 ∧
    (∀ h, h ≠ 12 → to24h false h = h) ∧
    parse_dt_line "1/5/2025" "12:00 AM" = some ⟨2025, 1, 5, 0, 0, 0⟩ ∧
    parse_dt_line "1/5/2025" "12:30 PM" = some ⟨2025, 1, 5, 12, 30, 0⟩ ∧
    parse_dt_line "1/5/2025" "1:15 PM" = some ⟨2025, 1, 5, 13, 15, 0⟩ ∧
    parse_dt_line "1/5/2025" "11:59 PM" = some ⟨2025, 1, 5, 23, 59, 0⟩ := by
  refine ⟨fun ds ts dt hp => ?_, by decide, fun h hne => ?_, by decide,
    fun h hne => ?_, by decide, by decide, by decide, by decide⟩
  · obtain ⟨g, -, hm⟩ := parse_dt_line_eq_some hp
    obtain ⟨hdt, hh, -⟩ := mkDatetime_eq_some hm
    rw [hdt]
    exact hh
  · simp [to24h, hne]
  · simp [to24h, hne]

/-- Witness for C4: the boundary input `11:59 PM` parses and its hour is
within range; `1 PM` converts to 13. -/
theorem hour_conversion_in_range_witness :
    parse_dt_line "1/5/2025" "11:59 PM" = some ⟨2025, 1, 5, 23, 59, 0⟩ ∧
    (⟨2025, 1, 5, 23, 59, 0⟩ : PyDateTime).hour ≤ 23 ∧
    to24h true 1 = 1 + 12 :=
  ⟨by decide,
    hour_conversion_in_range.1 "1/5/2025" "11:59 PM" ⟨2025, 1, 5, 23, 59, 0⟩
      (by decide),
    hour_conversion_in_range.2.2.1 1 (by decide)⟩

/-- C10: the seconds component of every successful parse is `0`; even when
the optional `:SS` group matches (here `:30`), its captured value is
discarded and the result still carries second `0`. -/
theorem seconds_always_zero :
    (∀ ds ts dt, parse_dt_line ds ts = some dt → dt.second = 0) ∧
    reSearch (normalize_ws ("1/5/2025" ++ " " ++ "10:00:30 AM")).data =
      some ⟨1, 5, 2025, 10, 0, some 30, false⟩ ∧
    parse_dt_line "1/5/2025" "10:00:30 AM" = some ⟨2025, 1, 5, 10, 0, 0⟩ := by
  refine ⟨fun ds ts dt hp => ?_, by decide, by decide⟩
  obtain ⟨g, -, hm⟩ := parse_dt_line_eq_some hp
  obtain ⟨hdt, -, -⟩ := mkDatetime_eq_some hm
  rw [hdt]

/-- Witness for C10: a parse whose input carries an explicit seconds field
still returns second `0`. -/
theorem seconds_always_zero_witness :
    parse_dt_line "1/5/2025" "10:00:30 AM" = some ⟨2025, 1, 5, 10, 0, 0⟩ ∧
    (⟨2025, 1, 5, 10, 0, 0⟩ : PyDateTime).second = 0 :=
  ⟨by decide,
    seconds_always_zero.1 "1/5/2025" "10:00:30 AM" ⟨2025, 1, 5, 10, 0, 0⟩
      (by decide)⟩

/-- C6: when the first candidate is shorter than 3 characters and more
than one candidate exists, the selection promotes the second candidate to
title and the third (or empty) to location, unconditionally on the length
of the promoted title — the correction is applied once and does not
recurse; the claimed row extracts to (Budget Session, Senate Chamber). -/
theorem short_title_correction :
    (∀ pt : List String, 1 < pt.length → (pt.getD 0 "").length < 3 →
      select_title_loc pt = (pt.getD 1 "", pt.getD 2 "")) ∧
    parse_events_row ["1/5/2025", "10:00 AM", "HB", "Budget Session",
      "Senate Chamber"] =
      some ⟨⟨2025, 1, 5, 10, 0, 0⟩, "Budget Session", "Senate Chamber"⟩ := by
  refine ⟨fun pt h1 h2 => ?_, by decide⟩
  match pt with
  | a :: b :: rest =>
    simp only [List.getD_cons_zero] at h2
    simp [select_title_loc, h2]

/-- Witness for C6: the promoted second candidate is itself shorter than
3 characters and is still kept — no second correction happens. -/
theorem short_title_correction_witness :
    1 < (["HB", "ab", "Senate Chamber"] : List String).length ∧
    ((["HB", "ab", "Senate Chamber"] : List String).getD 0 "").length < 3 ∧
    select_title_loc ["HB", "ab", "Senate Chamber"] = ("ab", "Senate Chamber") :=
  ⟨by decide, by decide,
    short_title_correction.1 ["HB", "ab", "Senate Chamber"] (by decide)
      (by decide)⟩

/-! Session-token lemmas (C9). -/

/-- Once the tokens are stored, a whole run of further calls leaves the
state unchanged and never issues the landing-page GET again, whatever
GET and POST outcomes the environment supplies. -/
lemma run_fetches_stored (t : List (String × String)) :
    ∀ gps : List (Except String LandingPage × Except String String),
      run_fetches gps ⟨some t⟩ = (⟨some t⟩, List.replicate gps.length false)
  | [] => rfl
  | gp :: gps => by
    simp [run_fetches, fetch_events_day_model, run_fetches_stored t gps,
      List.replicate_succ]

/-- Counterexample to C9 as stated: when the landing GET of the first
fetch invocation raises, `asp_tokens` is never assigned, so the second
invocation issues the landing GET again — the GET flags of the run are
[true, true], not confined to the first invocation. -/
theorem token_get_retried_counterexample :
    (run_fetches
        [(Except.error "landing GET timeout", Except.ok "page1"),
         (Except.ok (fun f => if f = "__VIEWSTATE" then some (some "v1")
            else none), Except.ok "page2")] ⟨none⟩).2 = [true, true] ∧
    ¬ ((run_fetches
        [(Except.error "landing GET timeout", Except.ok "page1"),
         (Except.ok (fun f => if f = "__VIEWSTATE" then some (some "v1")
            else none), Except.ok "page2")] ⟨none⟩).2 = [true, false]) :=
  ⟨by decide, by decide⟩

/-- C9 amended: a call finding a stored mapping issues no GET, leaves the
state unchanged and reuses the identical mapping whatever its POST
outcome (a failing POST included); while no mapping is stored, a failing
landing GET leaves the mapping unset — so the GET is re-attempted on the
next invocation — and propagates as the failure of that call before any
POST; the mapping is stored exactly by the first invocation whose landing
GET succeeds, and every invocation after it issues no GET; extraction
omits missing hidden fields rather than failing and keeps the fields
that are present. -/
theorem tokens_stored_at_most_once :
    (∀ (get : Except String LandingPage) (post : Except String String) st t,
      st.asp_tokens = some t →
      fetch_events_day_model get post st = (st, false, post)) ∧
    (∀ (e : String) (post : Except String String),
      fetch_events_day_model (Except.error e) post ⟨none⟩ =
        (⟨none⟩, true, Except.error e)) ∧
    (∀ (pre : List (Except String LandingPage × Except String String))
      (landing : LandingPage) (p : Except String String)
      (rest : List (Except String LandingPage × Except String String)),
      (∀ gp ∈ pre, ∃ e, gp.1 = Except.error e) →
      run_fetches (pre ++ (Except.ok landing, p) :: rest) ⟨none⟩ =
        (⟨some (extract_tokens landing)⟩,
         List.replicate (pre.length + 1) true ++
           List.replicate rest.length false)) ∧
    (∀ (landing : LandingPage) f, landing f = none →
      ∀ v, (f, v) ∉ extract_tokens landing) ∧
    (∀ (landing : LandingPage) f a, f ∈ token_fields →
      landing f = some a → (f, a.getD "") ∈ extract_tokens landing) := by
  refine ⟨fun get post st t hst => ?_, fun e post => rfl, ?_,
    fun landing f hf v hmem => ?_, fun landing f a hf ha => ?_⟩
  · simp [fetch_events_day_model, hst]
  · intro pre
    induction pre with
    | nil =>
      intro landing p rest hpre
      simp [run_fetches, fetch_events_day_model,
        run_fetches_stored (extract_tokens landing) rest,
        List.replicate_succ]
    | cons gp pre ih =>
      intro landing p rest hpre
      obtain ⟨e, he⟩ := hpre gp (List.mem_cons_self _ _)
      have hstep :
          run_fetches ((gp :: pre) ++ (Except.ok landing, p) :: rest)
            ⟨none⟩ =
          ((run_fetches (pre ++ (Except.ok landing, p) :: rest) ⟨none⟩).1,
           true ::
             (run_fetches (pre ++ (Except.ok landing, p) :: rest)
               ⟨none⟩).2) := by
        simp [run_fetches, fetch_events_day_model, he]
      rw [hstep,
        ih landing p rest (fun q hq => hpre q (List.mem_cons_of_mem _ hq))]
      simp [List.replicate_succ, List.length_cons]
  · simp only [extract_tokens, List.mem_filterMap] at hmem
    obtain ⟨x, -, hx⟩ := hmem
    rw [Option.map_eq_some'] at hx
    obtain ⟨w, hw, heq⟩ := hx
    have hxf : x = f := congrArg Prod.fst heq
    rw [hxf] at hw
    rw [hw] at hf
    cases hf
  · simp only [extract_tokens, List.mem_filterMap]
    exact ⟨f, hf, by rw [ha]; rfl⟩

/-- Witness for the amended C9: a three-call run whose first landing GET
times out, whose second call captures from a page carrying only
`__VIEWSTATE`, and whose third call fails its POST yet reuses the stored
mapping: the GET flags are [true, true, false] and the two missing
fields are simply absent from the captured mapping. -/
theorem tokens_stored_at_most_once_witness :
    run_fetches
        (([(Except.error "landing GET timeout", Except.ok "page1")] :
            List (Except String LandingPage × Except String String)) ++
          (Except.ok (fun f => if f = "__VIEWSTATE" then some (some "v1")
             else none), Except.ok "page2") ::
          [(Except.ok (fun _ => none), Except.error "post failed")]) ⟨none⟩ =
      (⟨some (extract_tokens (fun f => if f = "__VIEWSTATE" then
          some (some "v1") else none))⟩,
       List.replicate 2 true ++ List.replicate 1 false) ∧
    (∀ v, ("__EVENTVALIDATION", v) ∉ extract_tokens
        (fun f => if f = "__VIEWSTATE" then some (some "v1") else none)) ∧
    ("__VIEWSTATE", "v1") ∈ extract_tokens
        (fun f => if f = "__VIEWSTATE" then some (some "v1") else none) :=
  ⟨tokens_stored_at_most_once.2.2.1 _ _ _ _
      (fun gp hgp => by
        rw [List.mem_singleton.mp hgp]
        exact ⟨"landing GET timeout", rfl⟩),
   tokens_stored_at_most_once.2.2.2.1 _ _ (by decide),
   tokens_stored_at_most_once.2.2.2.2 _ _ (some "v1") (by decide)
     (by decide)⟩

/-! Politeness-delay lemmas (C7). -/

/-- Sleep count of the day loop: one sleep per day whose step completed
without an exception, none for a day that raised. -/
lemma count_sleep_foldl (days : Nat → Except String (List (List String))) :
    ∀ (l : List Nat) (st : List Event × List RunAction),
      ((l.foldl (fun st i => day_step st i (days i)) st).2.count
        RunAction.sleepHalf) =
      st.2.count RunAction.sleepHalf +
        (l.filter (fun i => okDay (days i))).length
  | [], st => by simp
  | i :: l, st => by
    rw [List.foldl_cons, count_sleep_foldl days l, List.filter_cons]
    cases hd : days i with
    | ok rows =>
      simp [day_step, hd, okDay, Nat.add_assoc, Nat.add_comm 1]
    | error e =>
      simp [day_step, hd, okDay]

/-- The per-run action trace of `main_model` is the day-loop trace. -/
lemma main_model_actions (days : Nat → Except String (List (List String)))
    (now : String) :
    (main_model days now).actions = (main_loop days).2 := by
  unfold main_model
  split <;> rfl

/-- Counterexample to C7 as stated: in a run whose every day raises, no
sleep at all is performed, not one per iteration — the `time.sleep(0.5)`
sits inside the `try` block after the fetch/extract and is skipped when
the day raises. -/
theorem sleep_every_iteration_counterexample :
    (main_model (fun _ => Except.error "connection refused")
        "20250101T000000Z").actions.count RunAction.sleepHalf = 0 ∧
    days_to_pull = 14 ∧
    ¬ ((main_model (fun _ => Except.error "connection refused")
        "20250101T000000Z").actions.count RunAction.sleepHalf =
      days_to_pull) := by
  refine ⟨by decide, rfl, by decide⟩

/-- C7 amended: the fixed 0.5 delay is performed exactly once per day
whose fetch/extract step completes without an exception, and is skipped
for a day that raises. -/
theorem sleep_after_successful_days
    (days : Nat → Except String (List (List String))) (now : String) :
    (main_model days now).actions.count RunAction.sleepHalf =
      ((List.range days_to_pull).filter (fun i => okDay (days i))).length := by
  rw [main_model_actions]
  unfold main_loop
  rw [count_sleep_foldl]
  simp

/-- Witness for the amended C7: with even days succeeding and odd days
raising, exactly the seven successful days sleep. -/
theorem sleep_after_successful_days_witness :
    (main_model (fun i => if i % 2 = 0 then
        Except.ok [["1/6/2025", "9:00 AM", "x", "Hearing", "Room 1"]]
      else Except.error "e") "ts").actions.count RunAction.sleepHalf =
      ((List.range days_to_pull).filter (fun i => okDay
        ((fun i => if i % 2 = 0 then
          Except.ok [["1/6/2025", "9:00 AM", "x", "Hearing", "Room 1"]]
        else Except.error "e") i))).length ∧
    ((List.range days_to_pull).filter (fun i => okDay
        ((fun i => if i % 2 = 0 then
          Except.ok [["1/6/2025", "9:00 AM", "x", "Hearing", "Room 1"]]
        else Except.error "e") i))).length = 7 :=
  ⟨sleep_after_successful_days _ "ts", by decide⟩

/-! Deduplication lemmas (C2, and the non-empty-write part of C5). -/

/-- Every entry of an upserted dict is an old entry or the new pair. -/
lemma upsert_mem {m : List (String × Event)} {k : String} {v : Event} :
    ∀ p ∈ upsert m k v, p ∈ m ∨ p = (k, v) := by
  induction m with
  | nil =>
    intro p hp
    simp only [upsert, List.mem_singleton] at hp
    exact Or.inr hp
  | cons a m ih =>
    intro p hp
    obtain ⟨k0, v0⟩ := a
    simp only [upsert] at hp
    by_cases hk : k0 = k
    · rw [if_pos hk] at hp
      rcases List.mem_cons.mp hp with h | h
      · exact Or.inr (by rw [h, hk])
      · exact Or.inl (List.mem_cons_of_mem _ h)
    · rw [if_neg hk] at hp
      rcases List.mem_cons.mp hp with h | h
      · exact Or.inl (h ▸ List.mem_cons_self _ _)
      · rcases ih p h with h2 | h2
        · exact Or.inl (List.mem_cons_of_mem _ h2)
        · exact Or.inr h2

/-- Key list of an upserted dict: unchanged when the key was present,
the key appended when it was new. -/
lemma upsert_keys (m : List (String × Event)) (k : String) (v : Event) :
    (upsert m k v).map Prod.fst =
      if k ∈ m.map Prod.fst then m.map Prod.fst
      else m.map Prod.fst ++ [k] := by
  induction m with
  | nil => simp [upsert]
  | cons a m ih =>
    obtain ⟨k0, v0⟩ := a
    simp only [upsert]
    by_cases hk : k0 = k
    · subst hk
      simp
    · rw [if_neg hk]
      simp only [List.map_cons, ih, List.mem_cons]
      by_cases hm : k ∈ m.map Prod.fst
      · rw [if_pos hm, if_pos (Or.inr hm)]
      · rw [if_neg hm, if_neg ?_, List.cons_append]
        rintro (h | h)
        · exact hk h.symm
        · exact hm h

/-- Upserting preserves key uniqueness. -/
lemma upsert_keys_nodup {m : List (String × Event)} {k : String} {v : Event}
    (h : (m.map Prod.fst).Nodup) : ((upsert m k v).map Prod.fst).Nodup := by
  rw [upsert_keys]
  split
  · exact h
  · next hm =>
    exact ((List.perm_append_singleton _ _).nodup_iff).mpr
      (List.nodup_cons.mpr ⟨hm, h⟩)

/-- Looking up the upserted key finds the new value. -/
lemma lookup_upsert_self (m : List (String × Event)) (k : String) (v : Event) :
    List.lookup k (upsert m k v) = some v := by
  induction m with
  | nil => simp [upsert, List.lookup]
  | cons a m ih =>
    obtain ⟨k0, v0⟩ := a
    simp only [upsert]
    by_cases hk : k0 = k
    · subst hk
      simp [List.lookup]
    · rw [if_neg hk]
      have hbeq : (k == k0) = false := beq_eq_false_iff_ne.mpr (fun h => hk h.symm)
      simp [List.lookup, hbeq, ih]

/-- Looking up any other key is unaffected by an upsert. -/
lemma lookup_upsert_ne {q k : String} (m : List (String × Event)) (v : Event)
    (h : q ≠ k) : List.lookup q (upsert m k v) = List.lookup q m := by
  induction m with
  | nil =>
    simp [upsert, List.lookup, beq_eq_false_iff_ne.mpr h]
  | cons a m ih =>
    obtain ⟨k0, v0⟩ := a
    simp only [upsert]
    by_cases hk : k0 = k
    · subst hk
      have hbeq : (q == k0) = false := beq_eq_false_iff_ne.mpr h
      simp [List.lookup, hbeq]
    · rw [if_neg hk]
      cases hq0 : (q == k0) <;> simp [List.lookup, hq0, ih]

/-- Lookup in the generalized dict build: the last event of `l` carrying
the key wins; keys absent from `l` fall through to the initial dict. -/
lemma lookup_dictAux (k : String) :
    ∀ (l : List Event) (m : List (String × Event)),
      List.lookup k (dictAux l m) =
        (match lastWith l k with
         | some x => some x
         | none => List.lookup k m)
  | [], m => by simp [dictAux, lastWith]
  | e :: l, m => by
    have hstep : dictAux (e :: l) m = dictAux l (upsert m e.uid e) := rfl
    rw [hstep, lookup_dictAux k l (upsert m e.uid e)]
    simp only [lastWith]
    cases lastWith l k with
    | some x => rfl
    | none =>
      by_cases he : e.uid = k
      · rw [if_pos he, he]
        exact lookup_upsert_self m k e
      · rw [if_neg he]
        exact lookup_upsert_ne m e (fun h => he h.symm)

/-- Every entry of the built dict keys its value by the value's uid. -/
lemma dictAux_fst_uid :
    ∀ (l : List Event) (m : List (String × Event)),
      (∀ p ∈ m, p.1 = Event.uid p.2) →
      ∀ p ∈ dictAux l m, p.1 = Event.uid p.2
  | [], _, hm => hm
  | e :: l, m, hm => by
    refine dictAux_fst_uid l (upsert m e.uid e) ?_
    intro p hp
    rcases upsert_mem p hp with h | h
    · exact hm p h
    · rw [h]

/-- The built dict has pairwise distinct keys. -/
lemma dictAux_keys_nodup :
    ∀ (l : List Event) (m : List (String × Event)),
      (m.map Prod.fst).Nodup → ((dictAux l m).map Prod.fst).Nodup
  | [], _, h => h
  | e :: l, m, h => dictAux_keys_nodup l (upsert m e.uid e) (upsert_keys_nodup h)

/-- With distinct keys, membership determines the lookup result. -/
lemma lookup_of_mem_nodup {k : String} {v : Event} :
    ∀ m : List (String × Event), (m.map Prod.fst).Nodup → (k, v) ∈ m →
      List.lookup k m = some v := by
  intro m
  induction m with
  | nil => intro _ h; cases h
  | cons a m ih =>
    obtain ⟨k0, v0⟩ := a
    intro hnd hmem
    have hnd2 : k0 ∉ m.map Prod.fst ∧ (m.map Prod.fst).Nodup := by
      rw [List.map_cons] at hnd
      exact List.nodup_cons.mp hnd
    rcases List.mem_cons.mp hmem with h | h
    · injection h with h1 h2
      subst h1
      subst h2
      simp [List.lookup]
    · have hk : k ≠ k0 := by
        intro he
        subst he
        exact hnd2.1 (List.mem_map.mpr ⟨(k, v), h, rfl⟩)
      have hbeq : (k == k0) = false := beq_eq_false_iff_ne.mpr hk
      simp only [List.lookup, hbeq]
      exact ih hnd2.2 h

/-- A successful lookup exhibits a member. -/
lemma mem_of_lookup {k : String} {v : Event} :
    ∀ m : List (String × Event), List.lookup k m = some v → (k, v) ∈ m := by
  intro m
  induction m with
  | nil => intro h; cases h
  | cons a m ih =>
    obtain ⟨k0, v0⟩ := a
    intro h
    cases hbeq : (k == k0) with
    | true =>
      simp only [List.lookup, hbeq] at h
      have hk : k = k0 := eq_of_beq hbeq
      have hv : v0 = v := Option.some.inj h
      subst hk
      subst hv
      exact List.mem_cons_self _ _
    | false =>
      simp only [List.lookup, hbeq] at h
      exact List.mem_cons_of_mem _ (ih h)

/-- The event `lastWith` returns carries the looked-up uid and occurs in
the list. -/
lemma lastWith_eq_some :
    ∀ (l : List Event) (k : String) (x : Event), lastWith l k = some x →
      x.uid = k ∧ x ∈ l
  | [], k, x => by simp [lastWith]
  | e :: l, k, x => by
    simp only [lastWith]
    cases h : lastWith l k with
    | some y =>
      intro h2
      obtain ⟨h3, h4⟩ := lastWith_eq_some l k y h
      have hyx : y = x := Option.some.inj h2
      subst hyx
      exact ⟨h3, List.mem_cons_of_mem _ h4⟩
    | none =>
      by_cases he : e.uid = k
      · rw [if_pos he]
        intro h2
        have hex : e = x := Option.some.inj h2
        subst hex
        exact ⟨he, List.mem_cons_self _ _⟩
      · rw [if_neg he]
        intro h2
        cases h2

/-- Every member's uid is found by `lastWith`. -/
lemma lastWith_of_mem :
    ∀ (l : List Event) (e : Event), e ∈ l →
      ∃ x, lastWith l e.uid = some x
  | [], e, h => absurd h (List.not_mem_nil e)
  | a :: l, e, h => by
    simp only [lastWith]
    cases hl : lastWith l e.uid with
    | some x => exact ⟨x, rfl⟩
    | none =>
      rcases List.mem_cons.mp h with he | he
      · subst he
        simp
      · obtain ⟨x, hx⟩ := lastWith_of_mem l e he
        rw [hx] at hl
        cases hl

/-! Stable-sort lemmas for `py_sorted_by_start` (C2). -/

/-- Strict datetime order is asymmetric. -/
lemma dtLt_asymm {a b : PyDateTime} (h : dtLt a b) : ¬ dtLt b a := by
  unfold dtLt at *
  omega

/-- Strict-then-nonstrict transitivity for the datetime order. -/
lemma dtLt_dtLe_trans {a b c : PyDateTime} (h1 : dtLt a b) (h2 : dtLe b c) :
    dtLe a c := by
  unfold dtLe dtLt at *
  omega

/-- Inserting permutes to a cons. -/
lemma pyInsert_perm (x : Event) : ∀ l, (pyInsert x l).Perm (x :: l)
  | [] => List.Perm.refl _
  | y :: ys => by
    simp only [pyInsert]
    split
    · exact List.Perm.refl _
    · exact ((pyInsert_perm x ys).cons y).trans (List.Perm.swap x y ys)

/-- The insertion fold permutes to appending the input. -/
lemma foldl_pyInsert_perm :
    ∀ (l acc : List Event),
      (l.foldl (fun a x => pyInsert x a) acc).Perm (acc ++ l)
  | [], acc => by simp
  | e :: l, acc => by
    simp only [List.foldl_cons]
    refine (foldl_pyInsert_perm l (pyInsert e acc)).trans ?_
    refine (List.Perm.append_right l (pyInsert_perm e acc)).trans ?_
    exact List.perm_middle.symm

/-- The embedded `sorted` is a permutation of its input. -/
lemma py_sorted_perm (l : List Event) : (py_sorted_by_start l).Perm l := by
  simpa using foldl_pyInsert_perm l []

/-- Inserting preserves sortedness by start time. -/
lemma pairwise_pyInsert (x : Event) :
    ∀ l : List Event,
      l.Pairwise (fun a b => dtLe a.dt_start b.dt_start) →
      (pyInsert x l).Pairwise (fun a b => dtLe a.dt_start b.dt_start)
  | [], _ => by simp [pyInsert]
  | y :: ys, h => by
    obtain ⟨hy, hys⟩ := List.pairwise_cons.mp h
    simp only [pyInsert]
    split
    · next hlt =>
      refine List.pairwise_cons.mpr ⟨?_, h⟩
      intro z hz
      rcases List.mem_cons.mp hz with rfl | hz2
      · exact dtLt_asymm hlt
      · exact dtLt_dtLe_trans hlt (hy z hz2)
    · next hlt =>
      refine List.pairwise_cons.mpr ⟨?_, pairwise_pyInsert x ys hys⟩
      intro z hz
      rcases List.mem_cons.mp ((pyInsert_perm x ys).mem_iff.mp hz) with rfl | hz2
      · exact hlt
      · exact hy z hz2

/-- The insertion fold sorts, starting from any sorted accumulator. -/
lemma foldl_pyInsert_pairwise :
    ∀ (l acc : List Event),
      acc.Pairwise (fun a b => dtLe a.dt_start b.dt_start) →
      (l.foldl (fun a x => pyInsert x a) acc).Pairwise
        (fun a b => dtLe a.dt_start b.dt_start)
  | [], _, h => h
  | e :: l, acc, h =>
    foldl_pyInsert_pairwise l (pyInsert e acc) (pairwise_pyInsert e acc h)

/-- The embedded `sorted` output is sorted by start time. -/
lemma py_sorted_pairwise (l : List Event) :
    (py_sorted_by_start l).Pairwise (fun a b => dtLe a.dt_start b.dt_start) :=
  foldl_pyInsert_pairwise l [] List.Pairwise.nil

/-- Lookup in the dict of a run is exactly the last event with the key. -/
lemma lookup_dict_of (k : String) (l : List Event) :
    List.lookup k (dict_of l) = lastWith l k := by
  have h := lookup_dictAux k l []
  exact h.trans (by cases lastWith l k <;> rfl)

/-- C2: the final list is sorted ascending by start time; its uids are
pairwise distinct; each of its events is the last event of the input that
carries its uid (later encounter wins); and every input uid is
represented, so the final list holds exactly one event per distinct
input uid. -/
theorem dedup_keeps_last_and_sorts (evs : List Event) :
    (finalize evs).Pairwise (fun a b => dtLe a.dt_start b.dt_start) ∧
    ((finalize evs).map Event.uid).Nodup ∧
    (∀ e, e ∈ finalize evs → lastWith evs e.uid = some e) ∧
    (∀ e, e ∈ evs → ∃ x, x ∈ finalize evs ∧ x.uid = e.uid) := by
  have hperm : (finalize evs).Perm (dict_values (dict_of evs)) :=
    py_sorted_perm _
  have hfst : ∀ p ∈ dict_of evs, p.1 = Event.uid p.2 :=
    dictAux_fst_uid evs [] (by simp)
  have hnd : ((dict_of evs).map Prod.fst).Nodup :=
    dictAux_keys_nodup evs [] (by simp)
  refine ⟨py_sorted_pairwise _, ?_, ?_, ?_⟩
  · have h1 : (dict_values (dict_of evs)).map Event.uid =
        (dict_of evs).map Prod.fst := by
      unfold dict_values
      rw [List.map_map]
      exact List.map_congr_left (fun p hp => (hfst p hp).symm)
    have h2 : ((finalize evs).map Event.uid).Perm ((dict_of evs).map Prod.fst) :=
      h1 ▸ hperm.map Event.uid
    exact h2.nodup_iff.mpr hnd
  · intro e he
    have hv : e ∈ dict_values (dict_of evs) := hperm.mem_iff.mp he
    obtain ⟨p, hp, hpe⟩ := List.mem_map.mp hv
    have hk : p.1 = e.uid := by rw [hfst p hp, hpe]
    have hpair : (e.uid, e) ∈ dict_of evs := by
      have hpp : p = (e.uid, e) := Prod.ext hk hpe
      rw [← hpp]
      exact hp
    have hlu : List.lookup e.uid (dict_of evs) = some e :=
      lookup_of_mem_nodup _ hnd hpair
    rw [lookup_dict_of e.uid evs] at hlu
    exact hlu
  · intro e he
    obtain ⟨x, hx⟩ := lastWith_of_mem evs e he
    obtain ⟨hxu, -⟩ := lastWith_eq_some evs e.uid x hx
    have hlu : List.lookup e.uid (dict_of evs) = some x := by
      rw [lookup_dict_of e.uid evs, hx]
    have hmem : (e.uid, x) ∈ dict_of evs := mem_of_lookup _ hlu
    have hv : x ∈ dict_values (dict_of evs) :=
      List.mem_map.mpr ⟨(e.uid, x), hmem, rfl⟩
    exact ⟨x, hperm.mem_iff.mpr hv, hxu⟩

set_option maxRecDepth 100000 in
/-- Witness for C2: of two events sharing a uid (same start, titles equal
up to case, different locations), the one encountered later survives into
the final list and is indeed the last with that uid. -/
theorem dedup_keeps_last_and_sorts_witness :
    (⟨⟨2025, 1, 5, 10, 0, 0⟩, "a", "y"⟩ : Event) ∈
      finalize [⟨⟨2025, 1, 5, 10, 0, 0⟩, "A", "x"⟩,
        ⟨⟨2025, 1, 5, 10, 0, 0⟩, "a", "y"⟩] ∧
    lastWith [⟨⟨2025, 1, 5, 10, 0, 0⟩, "A", "x"⟩,
        ⟨⟨2025, 1, 5, 10, 0, 0⟩, "a", "y"⟩]
      (⟨⟨2025, 1, 5, 10, 0, 0⟩, "a", "y"⟩ : Event).uid =
      some ⟨⟨2025, 1, 5, 10, 0, 0⟩, "a", "y"⟩ :=
  ⟨by decide,
    (dedup_keeps_last_and_sorts
      [⟨⟨2025, 1, 5, 10, 0, 0⟩, "A", "x"⟩,
       ⟨⟨2025, 1, 5, 10, 0, 0⟩, "a", "y"⟩]).2.2.1 _ (by decide)⟩

/-! Emptiness lemmas for C5. -/

/-- An upsert never shrinks the dict. -/
lemma upsert_length_ge (m : List (String × Event)) (k : String) (v : Event) :
    m.length ≤ (upsert m k v).length := by
  induction m with
  | nil => simp [upsert]
  | cons a m ih =>
    obtain ⟨k0, v0⟩ := a
    simp only [upsert]
    split
    · simp
    · simpa using ih

/-- The dict build never shrinks the dict. -/
lemma dictAux_length_ge :
    ∀ (l : List Event) (m : List (String × Event)),
      m.length ≤ (dictAux l m).length
  | [], _ => Nat.le_refl _
  | e :: l, m =>
    Nat.le_trans (upsert_length_ge m e.uid e) (dictAux_length_ge l _)

/-- A non-empty accumulated list yields a non-empty final list. -/
lemma finalize_ne_nil {l : List Event} (h : l ≠ []) : finalize l ≠ [] := by
  match l, h with
  | e :: l2, _ =>
    have hlen : 1 ≤ (dict_of (e :: l2)).length := by
      have hstep : dict_of (e :: l2) = dictAux l2 (upsert [] e.uid e) := rfl
      rw [hstep]
      exact Nat.le_trans (by simp [upsert]) (dictAux_length_ge l2 _)
    intro hf
    have hl2 : (finalize (e :: l2)).length = (dict_of (e :: l2)).length := by
      have := (py_sorted_perm (dict_values (dict_of (e :: l2)))).length_eq
      simpa [finalize, dict_values] using this
    rw [hf] at hl2
    simp at hl2
    omega

/-- C5: a run whose accumulated event list is empty reports failure and
leaves the output artifact exactly as it was (absent or intact); the
artifact is written only on a run whose accumulated — hence final — list
is non-empty, and then it is overwritten wholesale with the serialized
final list and success is reported. -/
theorem empty_run_writes_nothing :
    (∀ days now prior, (main_model days now).all_events = [] →
      (main_model days now).success = false ∧
      (main_model days now).written = none ∧
      apply_write prior (main_model days now) = prior) ∧
    (∀ days now c, (main_model days now).written = some c →
      (main_model days now).all_events ≠ [] ∧
      finalize ((main_model days now).all_events) ≠ [] ∧
      c = build_ics now (finalize ((main_model days now).all_events)) ∧
      (main_model days now).success = true) := by
  have hempty : ∀ days now, (main_loop days).1.isEmpty = true →
      main_model days now =
        { all_events := (main_loop days).1, actions := (main_loop days).2,
          written := none, success := false } := by
    intro days now h
    unfold main_model
    rw [if_pos h]
  have hfull : ∀ days now, ¬ (main_loop days).1.isEmpty = true →
      main_model days now =
        { all_events := (main_loop days).1, actions := (main_loop days).2,
          written := some (build_ics now (finalize (main_loop days).1)),
          success := true } := by
    intro days now h
    unfold main_model
    rw [if_neg h]
  constructor
  · intro days now prior h
    by_cases hc : (main_loop days).1.isEmpty = true
    · rw [hempty days now hc]
      exact ⟨rfl, rfl, rfl⟩
    · exfalso
      rw [hfull days now hc] at h
      have h2 : (main_loop days).1 = [] := h
      rw [h2] at hc
      exact hc rfl
  · intro days now c h
    by_cases hc : (main_loop days).1.isEmpty = true
    · rw [hempty days now hc] at h
      have h2 : (none : Option String) = some c := h
      cases h2
    · rw [hfull days now hc] at h ⊢
      have hne : (main_loop days).1 ≠ [] := by
        intro he
        rw [he] at hc
        exact hc rfl
      have h2 : some (build_ics now (finalize (main_loop days).1)) = some c := h
      exact ⟨hne, finalize_ne_nil hne, (Option.some.inj h2).symm, rfl⟩

/-- Witness for C5: fourteen days of successful fetches whose documents
hold no event rows leave a prior output file intact and report failure. -/
theorem empty_run_writes_nothing_witness :
    (main_model (fun _ => Except.ok []) "20250101T000000Z").all_events = [] ∧
    (main_model (fun _ => Except.ok []) "20250101T000000Z").success = false ∧
    apply_write (some "previous good calendar")
        (main_model (fun _ => Except.ok []) "20250101T000000Z") =
      some "previous good calendar" :=
  ⟨by decide,
    (empty_run_writes_nothing.1 (fun _ => Except.ok []) "20250101T000000Z"
      (some "previous good calendar") (by decide)).1,
    (empty_run_writes_nothing.1 (fun _ => Except.ok []) "20250101T000000Z"
      (some "previous good calendar") (by decide)).2.2⟩

/-! Serializer lemmas (C8). -/

/-- Two strings with different first characters stay different when the
first is extended on the right. -/
lemma str_append_ne (p q x : String) (a b : Char)
    (hp : p.data.head? = some a) (hq : q.data.head? = some b)
    (hab : a ≠ b) : p ++ x ≠ q := by
  intro h
  have h2 : (p ++ x).data = q.data := congrArg String.data h
  rw [String.data_append] at h2
  have h3 : (p.data ++ x.data).head? = some b := by rw [h2, hq]
  rw [List.head?_append, hp] at h3
  exact hab (Option.some.inj h3)

/-- Push a trailing separator through the join fold. -/
lemma joinSep_foldl (sep : String) :
    ∀ (xs : List String) (acc : String),
      xs.foldl (fun a y => a ++ sep ++ y) acc ++ sep =
        xs.foldl (fun a y => a ++ (y ++ sep)) (acc ++ sep)
  | [], _ => rfl
  | x :: xs, acc => by
    simp only [List.foldl_cons]
    rw [joinSep_foldl sep xs (acc ++ sep ++ x)]
    congr 1
    rw [String.append_assoc]

/-- Joining with a separator and appending one more separator terminates
every piece, the last included. -/
lemma joinSep_term (sep x : String) (xs : List String) :
    joinSep sep (x :: xs) ++ sep =
      String.join ((x :: xs).map (fun l => l ++ sep)) := by
  simp only [joinSep, List.map_cons, String.join, List.foldl_cons,
    List.foldl_map, String.empty_append]
  exact joinSep_foldl sep xs x

/-- The serializer output is exactly its line list with every line — the
final one included — terminated by carriage-return line-feed. -/
lemma build_ics_join (now : String) (events : List Event) :
    build_ics now events =
      String.join ((ics_lines now events).map (fun l => l ++ "\r\n")) := by
  unfold build_ics
  have h : ics_lines now events =
      "BEGIN:VCALENDAR" :: ((["VERSION:2.0", "PRODID:-//CGA//EN",
        "METHOD:PUBLISH"] ++ (events.map (ics_event_lines now)).flatten) ++
        ["END:VCALENDAR"]) := rfl
  rw [h, joinSep_term]

/-- Each event block holds exactly one `BEGIN:VEVENT` line. -/
lemma count_event_lines_begin (now : String) (e : Event) :
    (ics_event_lines now e).count "BEGIN:VEVENT" = 1 := by
  have h1 : (("UID:" ++ e.uid) == "BEGIN:VEVENT") = false :=
    beq_eq_false_iff_ne.mpr
      (str_append_ne "UID:" "BEGIN:VEVENT" e.uid 'U' 'B' (by decide)
        (by decide) (by decide))
  have h2 : (("DTSTAMP:" ++ now) == "BEGIN:VEVENT") = false :=
    beq_eq_false_iff_ne.mpr
      (str_append_ne "DTSTAMP:" "BEGIN:VEVENT" now 'D' 'B' (by decide)
        (by decide) (by decide))
  have h3 : (("DTSTART;TZID=America/New_York:" ++ e.dt_start.compact) ==
      "BEGIN:VEVENT") = false :=
    beq_eq_false_iff_ne.mpr
      (str_append_ne "DTSTART;TZID=America/New_York:" "BEGIN:VEVENT"
        e.dt_start.compact 'D' 'B' (by decide) (by decide) (by decide))
  have h4 : (("SUMMARY:" ++ escapeCommas e.title) == "BEGIN:VEVENT") = false :=
    beq_eq_false_iff_ne.mpr
      (str_append_ne "SUMMARY:" "BEGIN:VEVENT" (escapeCommas e.title) 'S' 'B'
        (by decide) (by decide) (by decide))
  have h5 : (("LOCATION:" ++ escapeCommas e.location) == "BEGIN:VEVENT") =
      false :=
    beq_eq_false_iff_ne.mpr
      (str_append_ne "LOCATION:" "BEGIN:VEVENT" (escapeCommas e.location)
        'L' 'B' (by decide) (by decide) (by decide))
  have h6 : (("END:VEVENT" : String) == "BEGIN:VEVENT") = false := by decide
  simp [ics_event_lines, List.count_cons, h1, h2, h3, h4, h5, h6]

/-- Each event block holds exactly one `END:VEVENT` line. -/
lemma count_event_lines_close (now : String) (e : Event) :
    (ics_event_lines now e).count "END:VEVENT" = 1 := by
  have h1 : (("UID:" ++ e.uid) == "END:VEVENT") = false :=
    beq_eq_false_iff_ne.mpr
      (str_append_ne "UID:" "END:VEVENT" e.uid 'U' 'E' (by decide)
        (by decide) (by decide))
  have h2 : (("DTSTAMP:" ++ now) == "END:VEVENT") = false :=
    beq_eq_false_iff_ne.mpr
      (str_append_ne "DTSTAMP:" "END:VEVENT" now 'D' 'E' (by decide)
        (by decide) (by decide))
  have h3 : (("DTSTART;TZID=America/New_York:" ++ e.dt_start.compact) ==
      "END:VEVENT") = false :=
    beq_eq_false_iff_ne.mpr
      (str_append_ne "DTSTART;TZID=America/New_York:" "END:VEVENT"
        e.dt_start.compact 'D' 'E' (by decide) (by decide) (by decide))
  have h4 : (("SUMMARY:" ++ escapeCommas e.title) == "END:VEVENT") = false :=
    beq_eq_false_iff_ne.mpr
      (str_append_ne "SUMMARY:" "END:VEVENT" (escapeCommas e.title) 'S' 'E'
        (by decide) (by decide) (by decide))
  have h5 : (("LOCATION:" ++ escapeCommas e.location) == "END:VEVENT") =
      false :=
    beq_eq_false_iff_ne.mpr
      (str_append_ne "LOCATION:" "END:VEVENT" (escapeCommas e.location)
        'L' 'E' (by decide) (by decide) (by decide))
  have h6 : (("BEGIN:VEVENT" : String) == "END:VEVENT") = false := by decide
  simp [ics_event_lines, List.count_cons, h1, h2, h3, h4, h5, h6]

/-- One `BEGIN:VEVENT` per event across all blocks. -/
lemma count_flat_begin (now : String) :
    ∀ events : List Event,
      ((events.map (ics_event_lines now)).flatten).count "BEGIN:VEVENT" =
        events.length
  | [] => by simp
  | e :: es => by
    simp only [List.map_cons, List.flatten_cons, List.count_append,
      List.length_cons]
    rw [count_event_lines_begin, count_flat_begin now es]
    omega

/-- One `END:VEVENT` per event across all blocks. -/
lemma count_flat_close (now : String) :
    ∀ events : List Event,
      ((events.map (ics_event_lines now)).flatten).count "END:VEVENT" =
        events.length
  | [] => by simp
  | e :: es => by
    simp only [List.map_cons, List.flatten_cons, List.count_append,
      List.length_cons]
    rw [count_event_lines_close, count_flat_close now es]
    omega

/-- C8: the serializer output is its line list with every line, the final
one included, terminated by CRLF, and for `n` input events the line list
holds exactly `n` `BEGIN:VEVENT` lines and `n` `END:VEVENT` lines. -/
theorem ics_crlf_one_block_per_event (now : String) (events : List Event) :
    build_ics now events =
      String.join ((ics_lines now events).map (fun l => l ++ "\r\n")) ∧
    (ics_lines now events).count "BEGIN:VEVENT" = events.length ∧
    (ics_lines now events).count "END:VEVENT" = events.length := by
  refine ⟨build_ics_join now events, ?_, ?_⟩
  · unfold ics_lines
    rw [List.count_append, List.count_append, count_flat_begin]
    have hh : (["BEGIN:VCALENDAR", "VERSION:2.0", "PRODID:-//CGA//EN",
        "METHOD:PUBLISH"] : List String).count "BEGIN:VEVENT" = 0 := by decide
    have hf : (["END:VCALENDAR"] : List String).count "BEGIN:VEVENT" = 0 := by
      decide
    rw [hh, hf]
    omega
  · unfold ics_lines
    rw [List.count_append, List.count_append, count_flat_close]
    have hh : (["BEGIN:VCALENDAR", "VERSION:2.0", "PRODID:-//CGA//EN",
        "METHOD:PUBLISH"] : List String).count "END:VEVENT" = 0 := by decide
    have hf : (["END:VCALENDAR"] : List String).count "END:VEVENT" = 0 := by
      decide
    rw [hh, hf]
    omega
